import Mathlib

/-!
# Verification of the entity/world simulation core

Shallow embedding of the tick-advancing core of a 2D platform game:
the rotation-based per-entity update pass (`src/utils.rs`,
`src/game/mod.rs`), the spawn queue (`src/entities.rs`), the animation
state machine (`src/animation.rs`), and the tile map lookups
(`src/world.rs`).

Modelling conventions: Rust `f64`/`f32` values are modelled as `ℚ`
(the code only adds, subtracts, compares, and truncates, so exact
rational arithmetic is faithful wherever rounding does not change a
comparison or a truncation); `usize`/`u16` indices are `ℕ`; `i32` is
`ℤ` with the `f64 -> i32` saturating-truncating cast made explicit;
Rust panics (`Vec` indexing out of bounds, `expect`, `assert!`)
are modelled by `Option`, returning `none` where the Rust aborts.
-/

namespace FluffyFiesta

/-! ## `src/utils.rs` : `one_rest_split_iter`

The Rust function removes the first element, calls `f` on it and the
remaining vector, then for `i in 0..vec.len()` swaps `vec[i]` with the
held-out element and calls `f` again, finally pushing the held-out
element at the back.  The closure `f` mutates the active element, the
rest of the vector, and whatever state it captured (`σ`); a swap is
modelled as a read at `i` (panicking — `none` — when out of bounds)
followed by a write at `i`.  The returned trace records the
`(active, rest)` argument pair of every call to `f`, in call order. -/

def orsLoop {T σ : Type} (f : T → List T → σ → T × List T × σ) :
    ℕ → ℕ → T → List T → σ → List (T × List T) →
    Option (T × List T × σ × List (T × List T))
  | 0, _, kept, vec, s, tr => some (kept, vec, s, tr)
  | n + 1, i, kept, vec, s, tr =>
    match vec.get? i with
    | none => none
    | some vi =>
      let vec1 := vec.set i kept
      let r := f vi vec1 s
      orsLoop f n (i + 1) r.1 r.2.1 r.2.2 (tr ++ [(vi, vec1)])

def one_rest_split_iter {T σ : Type} (f : T → List T → σ → T × List T × σ)
    (vec : List T) (s : σ) : Option (List T × σ × List (T × List T)) :=
  match vec with
  | [] => none
  | v0 :: rest =>
    let r := f v0 rest s
    match orsLoop f r.2.1.length 0 r.1 r.2.1 r.2.2 [(v0, rest)] with
    | none => none
    | some (kept, vec2, s2, tr) => some (vec2 ++ [kept], s2, tr)

/-- An entity-update callback that mutates the active entity and the
shared state but leaves the rest of the collection untouched, lifted to
the argument shape of `one_rest_split_iter` (this is the shape of the
closure in `Game::update`, whose `WorldView` hands the rest of the
entities out without the pass itself rearranging them). -/
def liftLogic {T σ : Type} (u : T → σ → T × σ) : T → List T → σ → T × List T × σ :=
  fun t r s => ((u t s).1, r, (u t s).2)

/-- Applying `u` to every element in order while threading the shared
state through: the expected net effect of one full update pass. -/
def mapAccum {T σ : Type} (u : T → σ → T × σ) : List T → σ → List T × σ
  | [], s => ([], s)
  | t :: ts, s =>
    let p := u t s
    let q := mapAccum u ts p.2
    (p.1 :: q.1, q.2)

/-- Expected call trace of a pass: the `j`-th call receives the `j`-th
original element together with the already-updated elements before it
and the not-yet-visited elements after it. `done` is the updated part
already put back in place. -/
def traceSpecAux {T σ : Type} (u : T → σ → T × σ) :
    List T → σ → List T → List (T × List T)
  | _, _, [] => []
  | done, s, t :: ts =>
    (t, done ++ ts) :: traceSpecAux u (done ++ [(u t s).1]) (u t s).2 ts

def traceSpec {T σ : Type} (u : T → σ → T × σ) (v : List T) (s : σ) :
    List (T × List T) :=
  traceSpecAux u [] s v

/-- Per-element update with `T = ℕ` entities and a `ℕ` shared counter,
used to instantiate pass theorems at concrete inputs. -/
def demoLogic : ℕ → ℕ → ℕ × ℕ := fun t s => (t + s, s + 1)

/-! ## `src/animation.rs` : the animation state machine

`AnimationMap` is the policy trait; `sequence(state)` returns an object
whose `duration()` and `get(time)` we model as the two functions
`seqDuration` and `seqGet` of the state (the `interval()` accessor is
used only inside concrete `Sequence` implementations, not by
`Animation`, and is folded into `seqGet`).  `Animation.update` carries
explicit fuel for its `while` loop: `none` means the Rust either
panicked (assertion/`expect`) or looped longer than the given fuel. -/

structure AnimationMap (S F : Type) where
  initial_states : List S
  transition_to : S → Option S → List S
  seqDuration : S → ℚ
  seqGet : S → ℚ → Option F

structure Animation (S F : Type) where
  animation_map : AnimationMap S F
  states : List S
  state_idx : ℕ
  sequence_time : ℚ

def Animation.new {S F : Type} (m : AnimationMap S F) : Animation S F :=
  { animation_map := m, states := m.initial_states, state_idx := 0, sequence_time := 0 }

/-- The `while self.sequence_time >= current_sequence.duration()` loop of
`Animation::update`, one fuel per iteration.  On exhaustion of the state
list it requests `transition_to(last, None)`; the `assert!` that the new
list is non-empty and the `self.states[self.state_idx]` indexing are both
modelled by the `get?` lookup (`none` = panic). -/
def updateLoop {S F : Type} (m : AnimationMap S F) :
    ℕ → List S → ℕ → ℚ → S → Option (List S × ℕ × ℚ)
  | 0, _, _, _, _ => none
  | fuel + 1, states, idx, t, current =>
    if t < m.seqDuration current then some (states, idx, t)
    else if states.length ≤ idx + 1 then
      match (m.transition_to current none).get? 0 with
      | none => none
      | some c =>
        updateLoop m fuel (m.transition_to current none) 0
          (t - m.seqDuration current) c
    else
      match states.get? (idx + 1) with
      | none => none
      | some c => updateLoop m fuel states (idx + 1) (t - m.seqDuration current) c

def Animation.update {S F : Type} (fuel : ℕ) (a : Animation S F) (dt : ℚ) :
    Option (Animation S F) :=
  (a.states.get? a.state_idx).bind fun current =>
    (updateLoop a.animation_map fuel a.states a.state_idx
        (a.sequence_time + dt) current).map
      fun r => { a with states := r.1, state_idx := r.2.1, sequence_time := r.2.2 }

def Animation.goto_state {S F : Type} (a : Animation S F) (state : S) :
    Option (Animation S F) :=
  (a.states.get? 0).bind fun current =>
    let sts := a.animation_map.transition_to current (some state)
    if sts.isEmpty then none
    else some { a with states := sts, state_idx := 0, sequence_time := 0 }

def Animation.get {S F : Type} (a : Animation S F) : Option F :=
  (a.states.get? a.state_idx).bind fun state =>
    a.animation_map.seqGet state a.sequence_time

/-- Run a list of `update` calls in order (`none` as soon as one fails). -/
def updSeq {S F : Type} (fuel : ℕ) (a : Animation S F) : List ℚ → Option (Animation S F)
  | [] => some a
  | dt :: rest => (Animation.update fuel a dt).bind fun a1 => updSeq fuel a1 rest

/-- Rust `f64 as usize` on the model: truncate toward zero, negative
values saturate to 0 (used by `TestSequence::get`'s `time as usize`). -/
def ratToUsize (q : ℚ) : ℕ := (Int.floor q).toNat

/-- The deterministic test policy of `animation.rs`'s test module.
The enum discriminants (`Idle = 10`, ...) are the frame-id offsets. -/
inductive TestState : Type
  | Idle
  | IdleAnim
  | Running
  | Stopping
deriving DecidableEq

def TestState.val : TestState → ℕ
  | .Idle => 10
  | .IdleAnim => 20
  | .Running => 30
  | .Stopping => 40

/-- `TestMap::transition_to`, match arms in source order. -/
def testTransition (current : TestState) (other : Option TestState) : List TestState :=
  match current, other with
  | .Running, some .Idle => [.Stopping, .Idle]
  | _, some t => [t]
  | .Running, none => [.Running]
  | _, none => [.Idle, .Idle, .IdleAnim]

/-- `TestMap` with `TestSequence`: every sequence has `duration() = 5.0`
and `get(time) = Some(id + time as usize)`. -/
def testMap : AnimationMap TestState ℕ :=
  { initial_states := [.Idle, .Idle, .IdleAnim]
    transition_to := testTransition
    seqDuration := fun _ => 5
    seqGet := fun s t => some (s.val + ratToUsize t) }

/-- The policy contract the spec assumes: non-empty state lists, strictly
positive sequence durations, and sequences that can serve a frame for any
time in `[0, duration)`. -/
def GoodMap {S F : Type} (m : AnimationMap S F) : Prop :=
  m.initial_states ≠ [] ∧
  (∀ c o, m.transition_to c o ≠ []) ∧
  (∀ s, 0 < m.seqDuration s) ∧
  (∀ s t, 0 ≤ t → t < m.seqDuration s → (m.seqGet s t).isSome)

/-- The loop invariant of `Animation`: the current index addresses a
state and the elapsed time sits inside that state's sequence. -/
def AnimInv {S F : Type} (a : Animation S F) : Prop :=
  ∃ c, a.states.get? a.state_idx = some c ∧
    0 ≤ a.sequence_time ∧ a.sequence_time < a.animation_map.seqDuration c

/-- Animations reachable from `new` by successful `update` calls with
non-negative `dt` and successful `goto_state` calls. -/
inductive AnimReachable {S F : Type} : Animation S F → Prop
  | new (m : AnimationMap S F) : AnimReachable (Animation.new m)
  | upd {a a' : Animation S F} {fuel : ℕ} {dt : ℚ} : AnimReachable a → 0 ≤ dt →
      Animation.update fuel a dt = some a' → AnimReachable a'
  | goto {a a' : Animation S F} {s : S} : AnimReachable a →
      Animation.goto_state a s = some a' → AnimReachable a'

/-! ## `src/entities.rs` : `Spawn::update`

A queued spawnable is an abstract `T`; since each spawnable is invoked
at most once per pass and the spawn position is fixed for the pass,
its `spawn(&entity.pos)` call is modelled by a per-pass response
function `resp : T → Bool × Option E` giving the `(keep, produced)`
pair.  `spawnLoop` mirrors the `into_iter().filter_map(...)` with its
`spawned_one` flag; entities are pushed onto the world list in
invocation order and the loop additionally records which spawnables
were actually invoked. -/

def spawnLoop {T E : Type} (resp : T → Bool × Option E) :
    List T → Bool → List E → List T × List E × List T
  | [], _, ents => ([], ents, [])
  | s :: rest, spawnedOne, ents =>
    if spawnedOne then
      let r := spawnLoop resp rest true ents
      (s :: r.1, r.2.1, r.2.2)
    else
      let keep := (resp s).1
      let spawned := (resp s).2
      let ents1 := match spawned with
        | some e => ents ++ [e]
        | none => ents
      let r := spawnLoop resp rest spawned.isSome ents1
      ((if keep then s :: r.1 else r.1), r.2.1, s :: r.2.2)

/-- `Spawn::update` for one tick: swap out the spawn queue, run the
filtered loop starting with `spawned_one = false`, swap the surviving
queue back, return `true` (the spawn entity keeps itself alive).
Result: (new world entities, new spawn queue, invoked spawnables,
returned keep flag). -/
def Spawn.update {T E : Type} (resp : T → Bool × Option E)
    (entities : List E) (spawnables : List T) :
    List E × List T × List T × Bool :=
  let r := spawnLoop resp spawnables false entities
  (r.2.1, r.1, r.2.2, true)

/-! ## `src/world.rs` : `Map` and tile lookup

`TileType`'s sprite handle is irrelevant to lookup and is dropped;
a `Tile` (`u16` in the source) is a `ℕ` palette index. -/

structure TileType where
  damage : ℚ
  collide : Bool
deriving DecidableEq

abbrev Tile := ℕ

structure Map where
  width : ℕ
  height : ℕ
  tiletypes : List TileType
  tiles : List Tile
deriving DecidableEq

/-- `Map::tile`: bounds check `x >= 0 && width > x as usize && y >= 0 &&
height > y as usize`, then the row-major indexing
`tiles[y * width + x]` into the palette.  The two `Vec` indexings are
`get?` (`none` = panic). -/
def Map.tile (m : Map) (x y : ℤ) : Option TileType :=
  if 0 ≤ x ∧ x.toNat < m.width ∧ 0 ≤ y ∧ y.toNat < m.height then
    (m.tiles.get? (y.toNat * m.width + x.toNat)).bind fun t => m.tiletypes.get? t
  else none

/-- Truncation toward zero (the rounding of Rust float-to-int `as`). -/
def ratTrunc (q : ℚ) : ℤ := if 0 ≤ q then ⌊q⌋ else ⌈q⌉

/-- Rust `f64 as i32`: truncate toward zero, saturating at the `i32`
range (finite inputs). -/
def f64_as_i32 (q : ℚ) : ℤ := max (-(2 ^ 31)) (min (2 ^ 31 - 1) (ratTrunc q))

/-- `Map::tilef`: `self.tile(x as i32, y as i32)`. -/
def Map.tilef (m : Map) (x y : ℚ) : Option TileType :=
  m.tile (f64_as_i32 x) (f64_as_i32 y)

/-! ## `src/game/mod.rs` : camera and `Game::update`

Entities and spawnables are abstract (`Ent`, `Spw`); the per-entity
logic is an arbitrary callback of the same shape as the closure in
`Game::update`, receiving the active entity, the rest of the entities,
and the `WorldView`'s shared mutable state (map, spawn queue, focus
accumulator). -/

abbrev Vector2 := ℚ × ℚ

def CAMERA_MARGIN_X : ℚ := 5
def CAMERA_MARGIN_Y : ℚ := 5

structure Camera where
  aspect_ratio : ℚ
  pos : Vector2
  size : ℚ
  update_rate : ℚ
deriving DecidableEq

structure WorldViewState (Spw : Type) where
  map : Map
  spawnables : List Spw
  focus : Option (Vector2 × Vector2)

structure World (Ent Spw : Type) where
  map : Map
  entities : List Ent
  spawnables : List Spw

structure Game (Ent Spw : Type) where
  world : World Ent Spw
  camera : Camera

/-- `WorldView::focus`: first call seeds a degenerate box, later calls
widen it componentwise. -/
def focusAccum (focus : Option (Vector2 × Vector2)) (pos : Vector2) :
    Option (Vector2 × Vector2) :=
  some (match focus with
    | some old => ((min old.1.1 pos.1, min old.1.2 pos.2),
                   (max old.2.1 pos.1, max old.2.2 pos.2))
    | none => (pos, pos))

/-- The `if let Some((a, b)) = focus { ... }` camera block of
`Game::update`: margins, letterboxed size, centered position, then
exponential smoothing at `update_rate`. -/
def cameraApplyFocus (camera : Camera) (focus : Option (Vector2 × Vector2)) :
    Camera :=
  match focus with
  | none => camera
  | some f =>
    let a : Vector2 := (f.1.1 - CAMERA_MARGIN_X, f.1.2 - CAMERA_MARGIN_Y)
    let b : Vector2 := (f.2.1 + CAMERA_MARGIN_X, f.2.2 + CAMERA_MARGIN_Y)
    let ratio := camera.aspect_ratio
    let size := max (b.1 - a.1) ((b.2 - a.2) / ratio)
    let pos : Vector2 := ((a.1 + b.1 - size) / 2, (a.2 + b.2 - size * ratio) / 2)
    { camera with
      pos := (camera.pos.1 * (1 - camera.update_rate) + pos.1 * camera.update_rate,
              camera.pos.2 * (1 - camera.update_rate) + pos.2 * camera.update_rate)
      size := camera.size * (1 - camera.update_rate) + size * camera.update_rate }

/-- `Game::update` for one tick: run the per-entity pass over the
world's entities with a fresh `focus = None` accumulator, store the
mutated map/spawn queue/entities back, then apply the focus result to
the camera.  (Input polling and the returned `StateTransition` are out
of scope.) -/
def Game.update {Ent Spw : Type}
    (logic : Ent → List Ent → WorldViewState Spw → Ent × List Ent × WorldViewState Spw)
    (g : Game Ent Spw) : Option (Game Ent Spw) :=
  (one_rest_split_iter logic g.world.entities
      { map := g.world.map, spawnables := g.world.spawnables, focus := none }).map
    fun r =>
      { world := { map := r.2.1.map, entities := r.1, spawnables := r.2.1.spawnables }
        camera := cameraApplyFocus g.camera r.2.1.focus }

/-! ## Concrete instances used to instantiate theorems with hypotheses -/

/-- A 2x2 map with a two-entry palette, all tile indices valid. -/
def demoMap : Map :=
  { width := 2, height := 2
    tiletypes := [{ damage := 0, collide := true }, { damage := 1, collide := false }]
    tiles := [0, 1, 1, 0] }

/-- A 1x1 map with a single palette entry. -/
def unitMap : Map :=
  { width := 1, height := 1
    tiletypes := [{ damage := 0, collide := true }]
    tiles := [0] }

/-- Entity logic that touches nothing (no focus call, no spawning). -/
def noFocusLogic : ℕ → List ℕ → WorldViewState ℕ → ℕ × List ℕ × WorldViewState ℕ :=
  fun t r s => (t, r, s)

def demoCamera : Camera :=
  { aspect_ratio := 1, pos := (0, 0), size := 10, update_rate := 1 / 10 }

def demoGame : Game ℕ ℕ :=
  { world := { map := unitMap, entities := [1], spawnables := [] }
    camera := demoCamera }

/-- A concrete per-tick spawnable response: spawnables are numbers, a
spawnable `n` is kept iff `n` is even and produces entity `n` iff
`10 ≤ n`. -/
def demoResp : ℕ → Bool × Option ℕ :=
  fun n => (decide (n % 2 = 0), if 10 ≤ n then some n else none)

/-! ## Theorems -/

theorem get_append_length {T : Type} (d : List T) (p : T) (ps : List T) :
    (d ++ p :: ps).get? d.length = some p := by
  induction d with
  | nil => rfl
  | cons a d ih => exact ih

theorem set_append_length {T : Type} (d : List T) (p k : T) (ps : List T) :
    (d ++ p :: ps).set d.length k = d ++ k :: ps := by
  induction d with
  | nil => rfl
  | cons a d ih => exact congrArg (List.cons a) ih

theorem orsLoop_lift {T σ : Type} (u : T → σ → T × σ) :
    ∀ (pending done : List T) (kept : T) (s : σ) (tr : List (T × List T)),
    (orsLoop (liftLogic u) pending.length done.length kept (done ++ pending) s tr).map
        (fun r => (r.2.1 ++ [r.1], r.2.2.1, r.2.2.2)) =
      some (done ++ kept :: (mapAccum u pending s).1, (mapAccum u pending s).2,
            tr ++ traceSpecAux u (done ++ [kept]) s pending) := by
  intro pending
  induction pending with
  | nil =>
    intro done kept s tr
    simp [orsLoop, mapAccum, traceSpecAux]
  | cons p ps ih =>
    intro done kept s tr
    show (orsLoop (liftLogic u) (ps.length + 1) done.length kept (done ++ p :: ps) s tr).map
        _ = _
    rw [orsLoop, get_append_length]
    simp only [set_append_length]
    have hlift : liftLogic u p (done ++ kept :: ps) s =
        ((u p s).1, done ++ kept :: ps, (u p s).2) := rfl
    rw [hlift]
    have hdk : done ++ kept :: ps = (done ++ [kept]) ++ ps := by simp
    have hlen : done.length + 1 = (done ++ [kept]).length := by simp
    rw [hdk, hlen]
    rw [ih ((done ++ [kept])) ((u p s).1) ((u p s).2)
        (tr ++ [(p, (done ++ [kept]) ++ ps)])]
    simp [mapAccum, traceSpecAux]

theorem one_rest_split_iter_lift_eq {T σ : Type} (u : T → σ → T × σ)
    (v : List T) (s₀ : σ) (hv : v ≠ []) :
    one_rest_split_iter (liftLogic u) v s₀ =
      some ((mapAccum u v s₀).1, (mapAccum u v s₀).2, traceSpec u v s₀) := by
  match v, hv with
  | v0 :: rest, _ =>
    show (match orsLoop (liftLogic u) rest.length 0 ((u v0 s₀).1) rest ((u v0 s₀).2)
          [(v0, rest)] with
      | none => none
      | some (kept, vec2, s2, tr) => some (vec2 ++ [kept], s2, tr)) = _
    have h := orsLoop_lift u rest [] ((u v0 s₀).1) ((u v0 s₀).2) [(v0, rest)]
    simp only [List.nil_append, List.length_nil] at h
    match hrun : orsLoop (liftLogic u) rest.length 0 ((u v0 s₀).1) rest ((u v0 s₀).2)
        [(v0, rest)] with
    | none => rw [hrun] at h; simp at h
    | some r =>
      rw [hrun] at h
      simp only [Option.map_some'] at h
      show some (r.2.1 ++ [r.1], r.2.2.1, r.2.2.2) = _
      rw [h]
      simp [mapAccum, traceSpec, traceSpecAux]

theorem traceSpecAux_length {T σ : Type} (u : T → σ → T × σ) :
    ∀ (v : List T) (d : List T) (s : σ), (traceSpecAux u d s v).length = v.length := by
  intro v
  induction v with
  | nil => intro d s; rfl
  | cons p ps ih => intro d s; simp [traceSpecAux, ih]

theorem traceSpecAux_get? {T σ : Type} (u : T → σ → T × σ) :
    ∀ (v : List T) (d : List T) (s : σ) (j : ℕ) (vj : T), v.get? j = some vj →
      (traceSpecAux u d s v).get? j =
        some (vj, d ++ (mapAccum u (v.take j) s).1 ++ v.drop (j + 1)) := by
  intro v
  induction v with
  | nil => intro d s j vj h; simp [List.get?] at h
  | cons p ps ih =>
    intro d s j vj h
    match j with
    | 0 =>
      simp only [List.get?] at h
      cases h
      simp [traceSpecAux, mapAccum]
    | j + 1 =>
      simp only [List.get?] at h
      have := ih (d ++ [(u p s).1]) ((u p s).2) j vj h
      simp only [traceSpecAux, List.get?]
      rw [this]
      simp [mapAccum, List.append_assoc]

/-- C1: During one tick over a non-empty entity list, the per-entity pass
(`one_rest_split_iter` as used by `Game::update`, with entity logic `u`
mutating the active entity and the shared `WorldView` state) calls each
entity's `logic.update` exactly once: the call trace has exactly one entry
per entity, the `j`-th call receives the `j`-th entity, and the
rest-of-entities handle passed alongside it holds exactly the other
entities — the already-updated ones before position `j` followed by the
untouched ones after it — never the active entity itself, so no entity is
reachable mutably through two paths at once. -/
theorem entity_update_pass_each_once {T σ : Type} (u : T → σ → T × σ)
    (v : List T) (s₀ : σ) (hv : v ≠ []) :
    one_rest_split_iter (liftLogic u) v s₀ =
      some ((mapAccum u v s₀).1, (mapAccum u v s₀).2, traceSpec u v s₀) ∧
    (traceSpec u v s₀).length = v.length ∧
    ∀ j vj, v.get? j = some vj →
      (traceSpec u v s₀).get? j =
        some (vj, (mapAccum u (v.take j) s₀).1 ++ v.drop (j + 1)) :=
  ⟨one_rest_split_iter_lift_eq u v s₀ hv,
   traceSpecAux_length u v [] s₀,
   fun j vj h => traceSpecAux_get? u v [] s₀ j vj h⟩

/-- C1 witness at a concrete two-entity pass with a shared counter. -/
theorem entity_update_pass_each_once_witness :
    ([5, 7] : List ℕ) ≠ [] ∧
    (one_rest_split_iter (liftLogic demoLogic) [5, 7] 0 =
        some ((mapAccum demoLogic [5, 7] 0).1, (mapAccum demoLogic [5, 7] 0).2,
              traceSpec demoLogic [5, 7] 0) ∧
      (traceSpec demoLogic [5, 7] 0).length = ([5, 7] : List ℕ).length ∧
      ∀ j vj, ([5, 7] : List ℕ).get? j = some vj →
        (traceSpec demoLogic [5, 7] 0).get? j =
          some (vj, (mapAccum demoLogic (([5, 7] : List ℕ).take j) 0).1 ++
                ([5, 7] : List ℕ).drop (j + 1))) :=
  ⟨by decide, entity_update_pass_each_once demoLogic [5, 7] 0 (by decide)⟩

/-- C10 counterexample: one full pass over `[1, 2, 3]` with logic that
leaves every entity unchanged returns the collection in its original
order `[1, 2, 3]`: the order has NOT changed, contrary to the claim
(each element is swapped back into its original slot; the final push
puts the last element at the tail, where it already was). -/
theorem pass_order_counterexample :
    (one_rest_split_iter (liftLogic (fun (t : ℕ) (s : Unit) => (t, s))) [1, 2, 3] ()).map
        (fun r => r.1) = some [1, 2, 3] := by
  decide

/-- C10 amended: after one full per-entity pass over a non-empty
collection (with a callback that leaves the rest list unmodified, as in
`Game::update`), the collection's order is unchanged: the result is the
elementwise update of the original list, each entity at its original
index. -/
theorem pass_preserves_order {T σ : Type} (u : T → σ → T × σ)
    (v : List T) (s₀ : σ) (hv : v ≠ []) :
    (one_rest_split_iter (liftLogic u) v s₀).map (fun r => r.1) =
      some (mapAccum u v s₀).1 := by
  rw [one_rest_split_iter_lift_eq u v s₀ hv]
  rfl

/-- C10 (amended) witness at a concrete two-entity pass. -/
theorem pass_preserves_order_witness :
    ([5, 7] : List ℕ) ≠ [] ∧
    (one_rest_split_iter (liftLogic demoLogic) [5, 7] 0).map (fun r => r.1) =
      some (mapAccum demoLogic [5, 7] 0).1 :=
  ⟨by decide, pass_preserves_order demoLogic [5, 7] 0 (by decide)⟩

set_option maxHeartbeats 1000000 in
/-- C3: Over the deterministic test policy (`TestMap`: every sequence has
duration 5.0, frame = state offset + truncated sequence time, initial
states `[Idle, Idle, IdleAnim]`, exhausted transition re-deriving the
initial list), the animation yields frame 10 at `t = 0`; 14 after
`update(9.2)`; 20 after a further `update(1.0)`; 13 after a further
`update(8.0)` (which crosses the end of the 3-state list and re-derives
the initial list via the exhausted transition); and 11 after a further
`update(3.0)`. -/
theorem test_animation_trace :
    (updSeq 4 (Animation.new testMap) []).map Animation.get = some (some 10) ∧
    (updSeq 4 (Animation.new testMap) [46 / 5]).map Animation.get = some (some 14) ∧
    (updSeq 4 (Animation.new testMap) [46 / 5, 1]).map Animation.get = some (some 20) ∧
    (updSeq 4 (Animation.new testMap) [46 / 5, 1, 8]).map Animation.get = some (some 13) ∧
    (updSeq 4 (Animation.new testMap) [46 / 5, 1, 8, 3]).map Animation.get =
      some (some 11) := by
  refine ⟨?_, ?_, ?_, ?_, ?_⟩ <;>
    (norm_num [updSeq, Animation.update, Animation.get, Animation.new, updateLoop, testMap,
      testTransition, TestState.val, ratToUsize, Option.bind, Int.toNat_ofNat]) <;>
    decide

/-- C5: `goto_state(X)` takes the state at position 0 of the current list
as "current", replaces the list with `policy.transition_to(current,
Some(X))`, and resets the position to the start of the new list and the
sequence time to 0 — discarding any in-progress sequence time, whatever
the animation's prior index and elapsed time were. -/
theorem goto_state_resets {S F : Type} (a : Animation S F) (X c : S)
    (hc : a.states.get? 0 = some c) (a' : Animation S F)
    (h : a.goto_state X = some a') :
    a'.states = a.animation_map.transition_to c (some X) ∧
    a'.state_idx = 0 ∧ a'.sequence_time = 0 ∧
    a'.animation_map = a.animation_map := by
  unfold Animation.goto_state at h
  rw [hc] at h
  simp only [Option.some_bind] at h
  by_cases he : (a.animation_map.transition_to c (some X)).isEmpty
  · rw [if_pos he] at h
    cases h
  · rw [if_neg he] at h
    cases h
    exact ⟨rfl, rfl, rfl, rfl⟩

/-- C5 witness: from the freshly created test animation, `goto_state
Running` installs `transition_to(Idle, Some Running) = [Running]` with
index 0 and sequence time 0. -/
theorem goto_state_resets_witness :
    (Animation.new testMap).states.get? 0 = some TestState.Idle ∧
    (Animation.new testMap).goto_state TestState.Running =
      some { animation_map := testMap, states := [TestState.Running],
             state_idx := 0, sequence_time := 0 } ∧
    ([TestState.Running] = testMap.transition_to TestState.Idle (some TestState.Running) ∧
      (0 : ℕ) = 0 ∧ (0 : ℚ) = 0 ∧ testMap = testMap) :=
  ⟨rfl, rfl,
   goto_state_resets (Animation.new testMap) TestState.Running TestState.Idle rfl
     { animation_map := testMap, states := [TestState.Running],
       state_idx := 0, sequence_time := 0 } rfl⟩

theorem updateLoop_mono {S F : Type} (m : AnimationMap S F) :
    ∀ (f1 : ℕ) {f2 : ℕ} {states : List S} {idx : ℕ} {t : ℚ} {cur : S}
      {r : List S × ℕ × ℚ}, f1 ≤ f2 →
      updateLoop m f1 states idx t cur = some r →
      updateLoop m f2 states idx t cur = some r := by
  intro f1
  induction f1 with
  | zero =>
    intro f2 states idx t cur r _ h
    rw [updateLoop] at h
    cases h
  | succ n ih =>
    intro f2 states idx t cur r hle h
    obtain ⟨f3, rfl⟩ : ∃ f3, f2 = f3 + 1 := ⟨f2 - 1, by omega⟩
    rw [updateLoop] at h ⊢
    by_cases hlt : t < m.seqDuration cur
    · rwa [if_pos hlt] at h ⊢
    · rw [if_neg hlt] at h ⊢
      by_cases hlen : states.length ≤ idx + 1
      · rw [if_pos hlen] at h ⊢
        cases hg : (m.transition_to cur none).get? 0 with
        | none => rw [hg] at h; cases h
        | some c => rw [hg] at h; exact ih (by omega) h
      · rw [if_neg hlen] at h ⊢
        cases hg : states.get? (idx + 1) with
        | none => rw [hg] at h; cases h
        | some c => rw [hg] at h; exact ih (by omega) h

theorem updateLoop_add {S F : Type} (m : AnimationMap S F) {b : ℚ} (hb : 0 ≤ b) :
    ∀ (f1 : ℕ) {f2 : ℕ} {states : List S} {idx : ℕ} {t : ℚ} {cur : S}
      {st1 : List S} {i1 : ℕ} {t1 : ℚ} {c1 : S} {r : List S × ℕ × ℚ},
      states.get? idx = some cur →
      updateLoop m f1 states idx t cur = some (st1, i1, t1) →
      st1.get? i1 = some c1 →
      updateLoop m f2 st1 i1 (t1 + b) c1 = some r →
      updateLoop m (f1 + f2) states idx (t + b) cur = some r := by
  intro f1
  induction f1 with
  | zero =>
    intro f2 states idx t cur st1 i1 t1 c1 r _ h1 _ _
    rw [updateLoop] at h1
    cases h1
  | succ n ih =>
    intro f2 states idx t cur st1 i1 t1 c1 r hcur h1 hc1 h2
    rw [updateLoop] at h1
    by_cases hlt : t < m.seqDuration cur
    · rw [if_pos hlt] at h1
      cases h1
      rw [hcur] at hc1
      cases hc1
      exact updateLoop_mono m f2 (by omega) h2
    · rw [if_neg hlt] at h1
      have hlt2 : ¬ t + b < m.seqDuration cur := by
        push_neg at hlt ⊢
        linarith
      have hf : n + 1 + f2 = (n + f2) + 1 := by omega
      rw [hf, updateLoop, if_neg hlt2]
      have harith : t + b - m.seqDuration cur = (t - m.seqDuration cur) + b := by ring
      by_cases hlen : states.length ≤ idx + 1
      · rw [if_pos hlen] at h1 ⊢
        cases hg : (m.transition_to cur none).get? 0 with
        | none => rw [hg] at h1; cases h1
        | some c =>
          rw [hg] at h1
          rw [harith]
          exact ih hg h1 hc1 h2
      · rw [if_neg hlen] at h1 ⊢
        cases hg : states.get? (idx + 1) with
        | none => rw [hg] at h1; cases h1
        | some c =>
          rw [hg] at h1
          rw [harith]
          exact ih hg h1 hc1 h2

/-- C4: For a deterministic policy, advancing time twice is the same as
advancing it once by the sum: if `update(a)` then `update(b)` succeed
(enough fuel for the Rust `while` loop, which the Option models), then a
single `update(a + b)` from the original state succeeds and produces the
very same animation state (states list, index, and sequence time). -/
theorem animation_update_split {S F : Type} (a : Animation S F) (x y : ℚ)
    (_hx : 0 ≤ x) (hy : 0 ≤ y) (f1 f2 : ℕ) (a1 a2 : Animation S F)
    (h1 : a.update f1 x = some a1) (h2 : a1.update f2 y = some a2) :
    a.update (f1 + f2) (x + y) = some a2 := by
  unfold Animation.update at h1 h2 ⊢
  cases hcur : a.states.get? a.state_idx with
  | none => rw [hcur] at h1; cases h1
  | some cur =>
    rw [hcur] at h1
    simp only [Option.some_bind] at h1 ⊢
    cases hrun1 : updateLoop a.animation_map f1 a.states a.state_idx
        (a.sequence_time + x) cur with
    | none => rw [hrun1] at h1; cases h1
    | some r1 =>
      rw [hrun1, Option.map_some'] at h1
      cases h1
      simp only [Option.some_bind] at h2
      cases hc1 : r1.1.get? r1.2.1 with
      | none => rw [hc1] at h2; cases h2
      | some c1 =>
        rw [hc1] at h2
        simp only [Option.some_bind] at h2
        cases hrun2 : updateLoop a.animation_map f2 r1.1 r1.2.1 (r1.2.2 + y) c1 with
        | none => rw [hrun2] at h2; cases h2
        | some r2 =>
          rw [hrun2, Option.map_some'] at h2
          cases h2
          have hassoc : a.sequence_time + (x + y) = (a.sequence_time + x) + y := by ring
          rw [hassoc, updateLoop_add a.animation_map hy f1 hcur hrun1 hc1 hrun2,
            Option.map_some']

set_option maxHeartbeats 1000000 in
/-- C4 witness: over the deterministic test policy,
`update(2); update(4)` and `update(6)` reach the same state
`(states = [Idle, Idle, IdleAnim], index 1, sequence time 1)`. -/
theorem animation_update_split_witness :
    (0 : ℚ) ≤ 2 ∧ (0 : ℚ) ≤ 4 ∧
    Animation.update 4 (Animation.new testMap) 2 =
      some { animation_map := testMap
             states := [TestState.Idle, TestState.Idle, TestState.IdleAnim]
             state_idx := 0, sequence_time := 2 } ∧
    Animation.update 4
        { animation_map := testMap
          states := [TestState.Idle, TestState.Idle, TestState.IdleAnim]
          state_idx := 0, sequence_time := 2 } 4 =
      some { animation_map := testMap
             states := [TestState.Idle, TestState.Idle, TestState.IdleAnim]
             state_idx := 1, sequence_time := 1 } ∧
    Animation.update (4 + 4) (Animation.new testMap) (2 + 4) =
      some { animation_map := testMap
             states := [TestState.Idle, TestState.Idle, TestState.IdleAnim]
             state_idx := 1, sequence_time := 1 } := by
  have h1 : Animation.update 4 (Animation.new testMap) 2 =
      some { animation_map := testMap
             states := [TestState.Idle, TestState.Idle, TestState.IdleAnim]
             state_idx := 0, sequence_time := 2 } := by
    norm_num [Animation.update, Animation.new, updateLoop, testMap, testTransition,
      Option.bind]
  have h2 : Animation.update 4
      { animation_map := testMap
        states := [TestState.Idle, TestState.Idle, TestState.IdleAnim]
        state_idx := 0, sequence_time := 2 } 4 =
      some { animation_map := testMap
             states := [TestState.Idle, TestState.Idle, TestState.IdleAnim]
             state_idx := 1, sequence_time := 1 } := by
    norm_num [Animation.update, Animation.new, updateLoop, testMap, testTransition,
      Option.bind]
  exact ⟨by norm_num, by norm_num, h1, h2,
    animation_update_split (Animation.new testMap) 2 4 (by norm_num) (by norm_num)
      4 4 _ _ h1 h2⟩

theorem update_map_eq {S F : Type} {a a' : Animation S F} {fuel : ℕ} {dt : ℚ}
    (h : a.update fuel dt = some a') : a'.animation_map = a.animation_map := by
  unfold Animation.update at h
  cases hcur : a.states.get? a.state_idx with
  | none => rw [hcur] at h; cases h
  | some cur =>
    rw [hcur] at h
    simp only [Option.some_bind] at h
    cases hrun : updateLoop a.animation_map fuel a.states a.state_idx
        (a.sequence_time + dt) cur with
    | none => rw [hrun] at h; cases h
    | some r =>
      rw [hrun, Option.map_some'] at h
      cases h
      rfl

theorem goto_map_eq {S F : Type} {a a' : Animation S F} {s : S}
    (h : a.goto_state s = some a') : a'.animation_map = a.animation_map := by
  unfold Animation.goto_state at h
  cases hcur : a.states.get? 0 with
  | none => rw [hcur] at h; cases h
  | some cur =>
    rw [hcur] at h
    simp only [Option.some_bind] at h
    by_cases he : (a.animation_map.transition_to cur (some s)).isEmpty
    · rw [if_pos he] at h; cases h
    · rw [if_neg he] at h; cases h; rfl

theorem updateLoop_inv {S F : Type} (m : AnimationMap S F) :
    ∀ (fuel : ℕ) {states : List S} {idx : ℕ} {t : ℚ} {cur : S}
      {st : List S} {i : ℕ} {tq : ℚ},
      states.get? idx = some cur → 0 ≤ t →
      updateLoop m fuel states idx t cur = some (st, i, tq) →
      ∃ c, st.get? i = some c ∧ 0 ≤ tq ∧ tq < m.seqDuration c := by
  intro fuel
  induction fuel with
  | zero =>
    intro states idx t cur st i tq _ _ h
    rw [updateLoop] at h
    cases h
  | succ n ih =>
    intro states idx t cur st i tq hcur ht h
    rw [updateLoop] at h
    by_cases hlt : t < m.seqDuration cur
    · rw [if_pos hlt] at h
      cases h
      exact ⟨cur, hcur, ht, hlt⟩
    · rw [if_neg hlt] at h
      have ht1 : 0 ≤ t - m.seqDuration cur := by
        push_neg at hlt
        linarith
      by_cases hlen : states.length ≤ idx + 1
      · rw [if_pos hlen] at h
        cases hg : (m.transition_to cur none).get? 0 with
        | none => rw [hg] at h; cases h
        | some c =>
          rw [hg] at h
          exact ih hg ht1 h
      · rw [if_neg hlen] at h
        cases hg : states.get? (idx + 1) with
        | none => rw [hg] at h; cases h
        | some c =>
          rw [hg] at h
          exact ih hg ht1 h

theorem anim_inv_new {S F : Type} (m : AnimationMap S F) (hm : GoodMap m) :
    AnimInv (Animation.new m) := by
  obtain ⟨hinit, _htrans, hdur, _hget⟩ := hm
  match hst : m.initial_states, hinit with
  | c :: rest, _ =>
    refine ⟨c, ?_, le_refl 0, hdur c⟩
    show (Animation.new m).states.get? 0 = some c
    unfold Animation.new
    rw [hst]
    rfl

theorem anim_inv_update {S F : Type} {a a' : Animation S F} {fuel : ℕ} {dt : ℚ}
    (hinv : AnimInv a) (hdt : 0 ≤ dt) (h : a.update fuel dt = some a') :
    AnimInv a' := by
  obtain ⟨c, hc, ht0, _htlt⟩ := hinv
  unfold Animation.update at h
  rw [hc] at h
  simp only [Option.some_bind] at h
  cases hrun : updateLoop a.animation_map fuel a.states a.state_idx
      (a.sequence_time + dt) c with
  | none => rw [hrun] at h; cases h
  | some r =>
    rw [hrun, Option.map_some'] at h
    cases h
    have := updateLoop_inv a.animation_map fuel hc (by linarith) hrun
    obtain ⟨c1, hc1, h0, hlt⟩ := this
    exact ⟨c1, hc1, h0, hlt⟩

theorem anim_inv_goto {S F : Type} {a a' : Animation S F} {s : S}
    (hm : GoodMap a.animation_map) (h : a.goto_state s = some a') : AnimInv a' := by
  obtain ⟨_hinit, _htrans, hdur, _hget⟩ := hm
  unfold Animation.goto_state at h
  cases hcur : a.states.get? 0 with
  | none => rw [hcur] at h; cases h
  | some cur =>
    rw [hcur] at h
    simp only [Option.some_bind] at h
    by_cases he : (a.animation_map.transition_to cur (some s)).isEmpty
    · rw [if_pos he] at h; cases h
    · rw [if_neg he] at h
      cases h
      match hl : a.animation_map.transition_to cur (some s), he with
      | c :: rest, _ => exact ⟨c, rfl, le_refl 0, hdur c⟩

theorem get_isSome_of_inv {S F : Type} {a : Animation S F}
    (hm : GoodMap a.animation_map) (hinv : AnimInv a) : a.get.isSome := by
  obtain ⟨_hinit, _htrans, _hdur, hget⟩ := hm
  obtain ⟨c, hc, h0, hlt⟩ := hinv
  unfold Animation.get
  rw [hc]
  simp only [Option.some_bind]
  exact hget c a.sequence_time h0 hlt

/-- C6: Given a policy whose `initial_states` and `transition_to` always
return non-empty lists, whose sequence durations are strictly positive,
and whose sequences serve a frame for every time in `[0, duration)`, any
animation reachable from `new` by successful `update(dt)` calls with
`dt ≥ 0` and by `goto_state` calls satisfies the invariant
`0 ≤ sequence_time < duration(current state's sequence)` (with the
current index addressing a state), so `get()`'s frame lookup always
succeeds — the "Animation exceeded sequence length" assertion is
unreachable. -/
theorem animation_safety {S F : Type} (a : Animation S F)
    (hr : AnimReachable a) (hm : GoodMap a.animation_map) :
    AnimInv a ∧ a.get.isSome := by
  suffices hinv : GoodMap a.animation_map → AnimInv a by
    exact ⟨hinv hm, get_isSome_of_inv hm (hinv hm)⟩
  clear hm
  induction hr with
  | new m => exact fun hm => anim_inv_new m hm
  | upd hra hdt hupd _ih =>
    intro hm
    have hmap := update_map_eq hupd
    rw [hmap] at hm
    exact anim_inv_update (_ih hm) hdt hupd
  | goto hra hgoto _ih =>
    intro hm
    have hmap := goto_map_eq hgoto
    rw [hmap] at hm
    exact anim_inv_goto hm hgoto

theorem testMap_good : GoodMap testMap := by
  refine ⟨?_, ?_, ?_, ?_⟩
  · simp [testMap]
  · intro c o
    cases o with
    | none => cases c <;> simp [testMap, testTransition]
    | some t => cases c <;> cases t <;> simp [testMap, testTransition]
  · intro s
    norm_num [testMap]
  · intro s t h0 hlt
    simp [testMap]

/-- C6 witness: the freshly created test animation is reachable, the
test policy satisfies the policy contract, and the safety conclusion
holds at it. -/
theorem animation_safety_witness :
    AnimReachable (Animation.new testMap) ∧
    GoodMap (Animation.new testMap).animation_map ∧
    (AnimInv (Animation.new testMap) ∧ (Animation.new testMap).get.isSome) :=
  ⟨AnimReachable.new testMap, testMap_good,
   animation_safety (Animation.new testMap) (AnimReachable.new testMap) testMap_good⟩

theorem spawnLoop_true {T E : Type} (resp : T → Bool × Option E) :
    ∀ (l : List T) (ents : List E), spawnLoop resp l true ents = (l, ents, []) := by
  intro l
  induction l with
  | nil => intro ents; rfl
  | cons s rest ih => intro ents; simp [spawnLoop, ih]

theorem spawnLoop_first_spawn {T E : Type} (resp : T → Bool × Option E) :
    ∀ (pre : List T) (s : T) (post : List T) (e : E) (entities : List E),
      (∀ p ∈ pre, (resp p).2 = none) → (resp s).2 = some e →
      spawnLoop resp (pre ++ s :: post) false entities =
        ((pre.filter fun p => (resp p).1) ++ (if (resp s).1 then [s] else []) ++ post,
         entities ++ [e], pre ++ [s]) := by
  intro pre
  induction pre with
  | nil =>
    intro s post e entities _ hs
    by_cases hk : (resp s).1 <;>
      simp [spawnLoop, hs, hk, spawnLoop_true]
  | cons p pre ih =>
    intro s post e entities hpre hs
    have hp : (resp p).2 = none := hpre p (List.mem_cons_self p pre)
    have hrest : ∀ q ∈ pre, (resp q).2 = none :=
      fun q hq => hpre q (List.mem_cons_of_mem p hq)
    by_cases hk : (resp p).1 <;>
      simp [spawnLoop, hp, hk, ih s post e entities hrest hs, List.filter_cons]

theorem spawnLoop_length_le {T E : Type} (resp : T → Bool × Option E) :
    ∀ (l : List T) (ents : List E),
      (spawnLoop resp l false ents).2.1.length ≤ ents.length + 1 := by
  intro l
  induction l with
  | nil => intro ents; simp [spawnLoop]
  | cons p rest ih =>
    intro ents
    cases hsp : (resp p).2 with
    | none =>
      by_cases hk : (resp p).1 <;> simpa [spawnLoop, hsp, hk] using ih ents
    | some e =>
      by_cases hk : (resp p).1 <;>
        simp [spawnLoop, hsp, hk, spawnLoop_true]

/-- C2: For a spawn queue `pre ++ [s] ++ post` where every spawnable in
`pre` declines to produce and `s` produces entity `e`, one `Spawn::update`
pass appends exactly the one entity `e` to the world's entity list; the
spawnables of `post` are not invoked and survive unchanged in order; each
invoked spawnable (`pre` and `s`, in queue order) is retained iff its
`keep` flag is true, order preserved; and — second conjunct — for any
queue and entity list whatsoever the pass grows the entity list by at
most one entity per tick. -/
theorem spawn_update_spec {T E : Type} (resp : T → Bool × Option E)
    (entities : List E) (pre : List T) (s : T) (post : List T) (e : E)
    (hpre : ∀ p ∈ pre, (resp p).2 = none) (hs : (resp s).2 = some e) :
    Spawn.update resp entities (pre ++ s :: post) =
      (entities ++ [e],
       (pre.filter fun p => (resp p).1) ++ (if (resp s).1 then [s] else []) ++ post,
       pre ++ [s], true) ∧
    ∀ (sp : List T) (ents : List E),
      (Spawn.update resp ents sp).1.length ≤ ents.length + 1 := by
  constructor
  · unfold Spawn.update
    rw [spawnLoop_first_spawn resp pre s post e entities hpre hs]
  · intro sp ents
    exact spawnLoop_length_le resp sp ents

/-- C2 witness: queue `[1, 3, 12, 4, 11]` under `demoResp` (1 and 3
decline and are dropped, 12 produces itself and is kept, 4 and 11 are
never invoked). -/
theorem spawn_update_spec_witness :
    (∀ p ∈ ([1, 3] : List ℕ), (demoResp p).2 = none) ∧ (demoResp 12).2 = some 12 ∧
    (Spawn.update demoResp [100] ([1, 3] ++ 12 :: [4, 11]) =
        ([100, 12],
         (([1, 3] : List ℕ).filter fun p => (demoResp p).1) ++
           (if (demoResp 12).1 then [12] else []) ++ [4, 11],
         [1, 3, 12], true) ∧
      ∀ (sp : List ℕ) (ents : List ℕ),
        (Spawn.update demoResp ents sp).1.length ≤ ents.length + 1) :=
  ⟨by decide, by decide,
   spawn_update_spec demoResp [100] [1, 3] 12 [4, 11] 12 (by decide) (by decide)⟩

/-- C7: On a well-formed map (row-major `tiles` of size `width * height`,
every tile index valid in the palette), `Map::tile(x, y)` returns `None`
exactly when `(x, y)` lies outside `[0, width) x [0, height)`, and inside
the bounds it returns the palette entry referenced by the tile stored at
row-major position `y * width + x`. -/
theorem tile_lookup (m : Map) (hlen : m.tiles.length = m.width * m.height)
    (hvalid : ∀ t ∈ m.tiles, t < m.tiletypes.length) (x y : ℤ) :
    (m.tile x y = none ↔
      x < 0 ∨ (m.width : ℤ) ≤ x ∨ y < 0 ∨ (m.height : ℤ) ≤ y) ∧
    ((0 ≤ x ∧ x < (m.width : ℤ) ∧ 0 ≤ y ∧ y < (m.height : ℤ)) →
      ∃ t tt, m.tiles.get? (y.toNat * m.width + x.toNat) = some t ∧
        m.tiletypes.get? t = some tt ∧ m.tile x y = some tt) := by
  have hcond : (0 ≤ x ∧ x.toNat < m.width ∧ 0 ≤ y ∧ y.toNat < m.height) ↔
      (0 ≤ x ∧ x < (m.width : ℤ) ∧ 0 ≤ y ∧ y < (m.height : ℤ)) := by omega
  have key : (0 ≤ x ∧ x < (m.width : ℤ) ∧ 0 ≤ y ∧ y < (m.height : ℤ)) →
      ∃ t tt, m.tiles.get? (y.toNat * m.width + x.toNat) = some t ∧
        m.tiletypes.get? t = some tt ∧ m.tile x y = some tt := by
    intro hb
    have hxw : x.toNat < m.width := by omega
    have hyh : y.toNat < m.height := by omega
    have hidx : y.toNat * m.width + x.toNat < m.tiles.length := by
      rw [hlen]
      calc y.toNat * m.width + x.toNat < y.toNat * m.width + m.width := by omega
        _ = (y.toNat + 1) * m.width := by ring
        _ ≤ m.height * m.width := Nat.mul_le_mul_right _ (by omega)
        _ = m.width * m.height := Nat.mul_comm _ _
    obtain ⟨t, ht⟩ : ∃ t, m.tiles.get? (y.toNat * m.width + x.toNat) = some t := by
      rw [List.get?_eq_get hidx]
      exact ⟨_, rfl⟩
    have htlt : t < m.tiletypes.length := hvalid t (List.get?_mem ht)
    obtain ⟨tt, htt⟩ : ∃ tt, m.tiletypes.get? t = some tt := by
      rw [List.get?_eq_get htlt]
      exact ⟨_, rfl⟩
    refine ⟨t, tt, ht, htt, ?_⟩
    unfold Map.tile
    rw [if_pos (hcond.mpr hb), ht]
    simpa using htt
  refine ⟨⟨?_, ?_⟩, key⟩
  · intro hnone
    by_contra hcon
    push_neg at hcon
    obtain ⟨t, tt, _, _, hsome⟩ := key ⟨by omega, by omega, by omega, by omega⟩
    rw [hsome] at hnone
    cases hnone
  · intro hout
    unfold Map.tile
    have hnc : ¬(0 ≤ x ∧ x.toNat < m.width ∧ 0 ≤ y ∧ y.toNat < m.height) := by omega
    rw [if_neg hnc]

/-- C7 witness at the concrete 2x2 map, coordinates (1, 0). -/
theorem tile_lookup_witness :
    demoMap.tiles.length = demoMap.width * demoMap.height ∧
    (∀ t ∈ demoMap.tiles, t < demoMap.tiletypes.length) ∧
    ((demoMap.tile 1 0 = none ↔
        (1 : ℤ) < 0 ∨ (demoMap.width : ℤ) ≤ 1 ∨ (0 : ℤ) < 0 ∨
          (demoMap.height : ℤ) ≤ 0) ∧
      ((0 ≤ (1 : ℤ) ∧ (1 : ℤ) < (demoMap.width : ℤ) ∧ 0 ≤ (0 : ℤ) ∧
          (0 : ℤ) < (demoMap.height : ℤ)) →
        ∃ t tt, demoMap.tiles.get? ((0 : ℤ).toNat * demoMap.width + (1 : ℤ).toNat) =
            some t ∧
          demoMap.tiletypes.get? t = some tt ∧ demoMap.tile 1 0 = some tt)) :=
  ⟨rfl, by decide, tile_lookup demoMap rfl (by decide) 1 0⟩

theorem tile_none_of_neg_x (m : Map) (x y : ℤ) (hx : x < 0) : m.tile x y = none := by
  unfold Map.tile
  have hnc : ¬(0 ≤ x ∧ x.toNat < m.width ∧ 0 ≤ y ∧ y.toNat < m.height) := by omega
  rw [if_neg hnc]

theorem tile_none_of_neg_y (m : Map) (x y : ℤ) (hy : y < 0) : m.tile x y = none := by
  unfold Map.tile
  have hnc : ¬(0 ≤ x ∧ x.toNat < m.width ∧ 0 ≤ y ∧ y.toNat < m.height) := by omega
  rw [if_neg hnc]

theorem f64_as_i32_nonneg_eq_floor (q : ℚ) (h0 : 0 ≤ q) (hub : q < 2 ^ 31) :
    f64_as_i32 q = ⌊q⌋ := by
  unfold f64_as_i32 ratTrunc
  rw [if_pos h0]
  have h1 : ⌊q⌋ < 2 ^ 31 := by
    rw [Int.floor_lt]
    exact_mod_cast hub
  have h2 : (0 : ℤ) ≤ ⌊q⌋ := Int.floor_nonneg.mpr h0
  rw [min_eq_right (by omega), max_eq_right (by omega)]

theorem f64_as_i32_neg_of_le (q : ℚ) (h : q ≤ -1) : f64_as_i32 q < 0 := by
  unfold f64_as_i32 ratTrunc
  have h0 : ¬(0 : ℚ) ≤ q := by linarith
  rw [if_neg h0]
  have hcl : ⌈q⌉ ≤ -1 := by
    rw [Int.ceil_le]
    exact_mod_cast h
  rw [min_eq_right (by omega)]
  have : max (-(2 ^ 31) : ℤ) ⌈q⌉ ≤ -1 := max_le (by omega) hcl
  omega

theorem floor_neg_of_le (q : ℚ) (h : q ≤ -1) : ⌊q⌋ < 0 := by
  have : ¬(0 : ℤ) ≤ ⌊q⌋ := by
    rw [Int.floor_nonneg]
    linarith
  omega

/-- C8 counterexample: on the 1x1 map, `tilef(-0.5, 0)` truncates toward
zero to `tile(0, 0)`, which is in bounds and returns a tile, while
`tile(floor(-0.5), floor(0)) = tile(-1, 0)` is out of bounds and returns
`None` — so `tilef` does NOT match `tile(floor(x), floor(y))` for all
finite inputs. -/
theorem tilef_floor_counterexample :
    ⌊(-1 / 2 : ℚ)⌋ = -1 ∧
    (unitMap.tilef (-1 / 2) 0).isSome = true ∧
    unitMap.tile (-1) 0 = none := by
  refine ⟨?_, ?_, ?_⟩
  · norm_num [Int.floor_eq_iff]
  · have hceil : ⌈(-1 / 2 : ℚ)⌉ = 0 := by norm_num [Int.ceil_eq_iff]
    have h0 : ¬(0 : ℚ) ≤ -1 / 2 := by norm_num
    have h00 : (0 : ℚ) ≤ 0 := le_refl 0
    simp only [Map.tilef, f64_as_i32, ratTrunc, Map.tile, unitMap, hceil, if_neg h0,
      if_pos h00, Int.floor_zero]
    decide
  · exact tile_none_of_neg_x unitMap (-1) 0 (by norm_num)

/-- C8 amended: `tilef(x, y)` agrees with `tile(floor(x), floor(y))` for
all finite `x, y` below `2^31` whose fractional truncation and floor
land on the same side of the bounds check — i.e. provided neither
coordinate lies in the open interval `(-1, 0)` (where `as i32`
truncation yields `0` but `floor` yields `-1`); both coordinates
nonnegative or at most `-1` suffices. -/
theorem tilef_eq_tile_floor (m : Map) (x y : ℚ)
    (hx : 0 ≤ x ∨ x ≤ -1) (hy : 0 ≤ y ∨ y ≤ -1)
    (hx2 : x < 2 ^ 31) (hy2 : y < 2 ^ 31) :
    m.tilef x y = m.tile ⌊x⌋ ⌊y⌋ := by
  unfold Map.tilef
  rcases hx with hx | hx
  · rw [f64_as_i32_nonneg_eq_floor x hx hx2]
    rcases hy with hy | hy
    · rw [f64_as_i32_nonneg_eq_floor y hy hy2]
    · rw [tile_none_of_neg_y m ⌊x⌋ (f64_as_i32 y) (f64_as_i32_neg_of_le y hy),
        tile_none_of_neg_y m ⌊x⌋ ⌊y⌋ (floor_neg_of_le y hy)]
  · rw [tile_none_of_neg_x m (f64_as_i32 x) (f64_as_i32 y) (f64_as_i32_neg_of_le x hx),
      tile_none_of_neg_x m ⌊x⌋ ⌊y⌋ (floor_neg_of_le x hx)]

/-- C8 (amended) witness at `x = 3/2, y = 0` on the 1x1 map. -/
theorem tilef_eq_tile_floor_witness :
    ((0 : ℚ) ≤ 3 / 2 ∨ (3 / 2 : ℚ) ≤ -1) ∧ ((0 : ℚ) ≤ 0 ∨ (0 : ℚ) ≤ -1) ∧
    (3 / 2 : ℚ) < 2 ^ 31 ∧ (0 : ℚ) < 2 ^ 31 ∧
    unitMap.tilef (3 / 2) 0 = unitMap.tile ⌊(3 / 2 : ℚ)⌋ ⌊(0 : ℚ)⌋ :=
  ⟨Or.inl (by norm_num), Or.inl (by norm_num), by norm_num, by norm_num,
   tilef_eq_tile_floor unitMap (3 / 2) 0 (Or.inl (by norm_num)) (Or.inl (by norm_num))
     (by norm_num) (by norm_num)⟩

/-- C9: In a tick where the focus accumulator is still `None` after the
per-entity pass (no entity called `focus`), `Game::update` stores the
pass results back but leaves the camera — its `pos` and `size` — exactly
unchanged. -/
theorem camera_unchanged_without_focus {Ent Spw : Type}
    (logic : Ent → List Ent → WorldViewState Spw → Ent × List Ent × WorldViewState Spw)
    (g : Game Ent Spw) (ents : List Ent) (wv : WorldViewState Spw)
    (tr : List (Ent × List Ent))
    (hrun : one_rest_split_iter logic g.world.entities
        { map := g.world.map, spawnables := g.world.spawnables, focus := none } =
        some (ents, wv, tr))
    (hfocus : wv.focus = none) :
    Game.update logic g =
      some { world := { map := wv.map, entities := ents, spawnables := wv.spawnables }
             camera := g.camera } := by
  unfold Game.update
  rw [hrun, Option.map_some']
  dsimp only
  rw [hfocus]
  rfl

/-- C9 witness: a one-entity game whose logic never calls `focus`; the
camera comes out identical. -/
theorem camera_unchanged_witness :
    one_rest_split_iter noFocusLogic demoGame.world.entities
        { map := demoGame.world.map, spawnables := demoGame.world.spawnables,
          focus := none } =
      some ([1], { map := unitMap, spawnables := ([] : List ℕ), focus := none },
            [(1, ([] : List ℕ))]) ∧
    ({ map := unitMap, spawnables := ([] : List ℕ), focus := none } :
        WorldViewState ℕ).focus = none ∧
    Game.update noFocusLogic demoGame =
      some { world := { map := unitMap, entities := [1], spawnables := [] }
             camera := demoGame.camera } :=
  ⟨rfl, rfl,
   camera_unchanged_without_focus noFocusLogic demoGame [1]
     ({ map := unitMap, spawnables := [], focus := none } : WorldViewState ℕ)
     [(1, ([] : List ℕ))] rfl rfl⟩
